import Mathlib

/-!
Shallow embedding of the Honeydew snapshot-cleaning core
(`src/lib.rs` and `src/structs.rs`).

Rust strings are modelled as `List Char`.  `chrono` local date-times are
modelled by their whole-second calendar components (`DT`), compared
chronologically through a numeric key.  Rust panics are modelled by
`Option`/`none`, and the external `Communicator` collaborator is modelled
by explicit parameters: the raw listing content, the exclusion-file
content, a `destroyOk` predicate standing for the result of the
collaborator's destroy call, and a `fileExists` predicate.
-/

namespace Honeydew

/-! ### Decimal digits and zero-padded numerals -/

/-- Numeric value of a decimal digit character. -/
def charVal (c : Char) : Nat := c.toNat - 48

/-- Value of a list of decimal digit characters, most significant first. -/
def digitsVal (cs : List Char) : Nat := cs.foldl (fun a c => 10 * a + charVal c) 0

/-- Specification of the decimal digit string of `n`, most significant digit
first (proof-side twin of `Nat.toDigits 10`, which is fuel-based). -/
def natDigitsSpec (n : Nat) : List Char :=
  if _hn : n < 10 then [Nat.digitChar n]
  else natDigitsSpec (n / 10) ++ [Nat.digitChar (n % 10)]
decreasing_by exact Nat.div_lt_self (by omega) (by omega)

/-- Decimal rendering of `n` left-padded with zeros to width `w`.  Models
chrono's zero-padded numeric formatting: `%Y` with width 4, `%m`, `%d` and
`%S` with width 2, and each half of the `%H%M` pair with width 2. -/
def padNum (w n : Nat) : List Char :=
  List.replicate (w - (Nat.toDigits 10 n).length) '0' ++ Nat.toDigits 10 n

/-! ### Date-times (model of `chrono::DateTime<Local>`) -/

/-- Model of `chrono::DateTime<Local>` restricted to whole-second local
calendar components, which is all the program ever constructs or compares. -/
structure DT where
  year : Nat
  month : Nat
  day : Nat
  hour : Nat
  minute : Nat
  second : Nat
deriving DecidableEq

/-- Numeric key whose order agrees with chronological order on calendar-valid
component tuples; comparison of keys models comparison of `chrono` instants. -/
def DT.key (t : DT) : Nat :=
  ((((t.year * 100 + t.month) * 100 + t.day) * 100 + t.hour) * 100 + t.minute) * 100
    + t.second

def isLeapYear (y : Nat) : Bool :=
  y % 4 = 0 && (y % 100 != 0 || y % 400 = 0)

def daysInMonth (y m : Nat) : Nat :=
  if m = 2 then (if isLeapYear y then 29 else 28)
  else if m = 4 ∨ m = 6 ∨ m = 9 ∨ m = 11 then 30
  else 31

/-- Calendar-valid component tuples that the fixed `%Y-%m-%d-%H%M-%S` format
can represent (4-digit year). -/
def DT.InRange (t : DT) : Prop :=
  t.year ≤ 9999 ∧ 1 ≤ t.month ∧ t.month ≤ 12 ∧ 1 ≤ t.day ∧
    t.day ≤ daysInMonth t.year t.month ∧ t.hour ≤ 23 ∧ t.minute ≤ 59 ∧ t.second ≤ 59

instance (t : DT) : Decidable t.InRange := by
  unfold DT.InRange; infer_instance

/-- chrono formatting of a date-time with the fixed program format
`%Y-%m-%d-%H%M-%S` (`SNAPSHOT_FORMAT` in `lib.rs`). -/
def formatDT (t : DT) : List Char :=
  padNum 4 t.year ++ ('-' :: (padNum 2 t.month ++ ('-' :: (padNum 2 t.day ++
    ('-' :: ((padNum 2 t.hour ++ padNum 2 t.minute) ++ ('-' :: padNum 2 t.second)))))))

/-- A fixed-width run of decimal digits; model of chrono's strict scan of one
zero-padded numeric field. -/
def parseFixed (w : Nat) (cs : List Char) : Option Nat :=
  if cs.length = w ∧ cs.all Char.isDigit then some (digitsVal cs) else none

/-- Model of `Local.datetime_from_str(s, "%Y-%m-%d-%H%M-%S")`: the five
hyphen-separated fields are scanned as fixed-width digit runs, and the
components are validated as a real calendar date and time of day
(`none` models a chrono parse error). -/
def datetimeFromStr (s : List Char) : Option DT :=
  match s.splitOn '-' with
  | [ys, ms, ds, hms, ss] =>
    match parseFixed 4 ys, parseFixed 2 ms, parseFixed 2 ds, parseFixed 4 hms,
        parseFixed 2 ss with
    | some y, some mo, some d, some hm, some s2 =>
      if 1 ≤ mo ∧ mo ≤ 12 ∧ 1 ≤ d ∧ d ≤ daysInMonth y mo ∧
          hm / 100 ≤ 23 ∧ hm % 100 ≤ 59 ∧ s2 ≤ 59 then
        some ⟨y, mo, d, hm / 100, hm % 100, s2⟩
      else none
    | _, _, _, _, _ => none
  | _ => none

/-- Days since 1970-01-01 of a civil date (standard civil-calendar day count,
models chrono's internal day arithmetic; Lean's `Int` division truncates
toward zero exactly like the arithmetic this algorithm was designed for). -/
def daysFromCivil (y m d : Int) : Int :=
  let y' := if m ≤ 2 then y - 1 else y
  let era := (if 0 ≤ y' then y' else y' - 399) / 400
  let yoe := y' - era * 400
  let mp := (m + 9) % 12
  let doy := (153 * mp + 2) / 5 + d - 1
  let doe := yoe * 365 + yoe / 4 - yoe / 100 + doy
  era * 146097 + doe - 719468

/-- Inverse of `daysFromCivil`: the civil date of a day count. -/
def civilFromDays (z0 : Int) : Int × Int × Int :=
  let z := z0 + 719468
  let era := (if 0 ≤ z then z else z - 146096) / 146097
  let doe := z - era * 146097
  let yoe := (doe - doe / 1460 + doe / 36524 - doe / 146096) / 365
  let y := yoe + era * 400
  let doy := doe - (365 * yoe + yoe / 4 - yoe / 100)
  let mp := (5 * doy + 2) / 153
  let d := doy - (153 * mp + 2) / 5 + 1
  let m := if mp < 10 then mp + 3 else mp - 9
  (if m ≤ 2 then y + 1 else y, m, d)

/-- Embedding of `get_cutoff_date` (`lib.rs`): the default cutoff is the given instant
minus 30 days (`time - Duration::days(30)`), same time of day. -/
def get_cutoff_date (t : DT) : DT :=
  let c := civilFromDays (daysFromCivil t.year t.month t.day - 30)
  ⟨c.1.toNat, c.2.1.toNat, c.2.2.toNat, t.hour, t.minute, t.second⟩

/-! ### Snapshot (`structs.rs`) -/

structure Snapshot where
  pool : List Char
  dataset : List Char
  date : DT
  label : List Char
  suffix : List Char
deriving DecidableEq

/-- Embedding of `Snapshot::new`: stores the four semantic fields and derives the cached
`"<formatted-timestamp>-<label>"` suffix. -/
def Snapshot.new (pool dataset : List Char) (date : DT) (label : List Char) : Snapshot :=
  { pool := pool, dataset := dataset, date := date, label := label,
    suffix := formatDT date ++ '-' :: label }

/-- Embedding of `Snapshot::is_stale`: the snapshot's timestamp is strictly earlier than
the cutoff. -/
def Snapshot.is_stale (s : Snapshot) (cutoff_date : DT) : Bool :=
  decide (s.date.key < cutoff_date.key)

/-- The `Display`/`Debug` rendering of a snapshot:
`dataset@<formatted-date>-<label>`. -/
def snapshotDisplay (s : Snapshot) : List Char :=
  s.dataset ++ '@' :: (formatDT s.date ++ '-' :: s.label)

/-- The cached suffix is the derived one.  This holds for every snapshot the
program constructs, since `Snapshot::new` always derives it. -/
def Snapshot.Derived (s : Snapshot) : Prop :=
  s.suffix = formatDT s.date ++ '-' :: s.label

/-- Equality on the four semantic fields (pool, dataset, timestamp, label). -/
def Snapshot.semEq (a b : Snapshot) : Prop :=
  a.pool = b.pool ∧ a.dataset = b.dataset ∧ a.date = b.date ∧ a.label = b.label

/-! ### Configuration (`structs.rs`) -/

structure Config where
  pool : List Char
  date : DT
  exclude_file : List Char
  show_queued : Bool
  show_excluded : Bool
  dry_run : Bool
  iteration_count : Nat
  no_confirm : Bool
  label : List Char
  show_config : Bool
deriving DecidableEq

/-- Embedding of `Config::new`.  The communicator is modelled by its `does_file_exist`
capability and `Local::now()` by the explicit `now` argument; the two
`panic!` branches (unparseable cutoff-date text, missing exclude file) are
modelled by `none`. -/
def Config.new (fileExists : List Char → Bool) (now : DT)
    (pool date exclude_file : List Char)
    (show_queued show_excluded dry_run : Bool) (iteration_count : Nat)
    (no_confirm : Bool) (label : List Char) (show_config : Bool) : Option Config :=
  match (if date.isEmpty then some (get_cutoff_date now) else datetimeFromStr date) with
  | none => none
  | some cutoff_date =>
    if !exclude_file.isEmpty && !fileExists exclude_file then none
    else
      some { pool := pool, date := cutoff_date, exclude_file := exclude_file,
             show_queued := show_queued, show_excluded := show_excluded,
             dry_run := dry_run, iteration_count := iteration_count,
             no_confirm := no_confirm, label := label, show_config := show_config }

/-! ### Parsing and filtering pipeline (`lib.rs`) -/

/-- Embedding of `parse_snapshot`: split on `@` (exactly two segments required), take the
pool as the first `/`-segment of the dataset path, require exactly six
`-`-separated tokens after the `@`, re-join the first five into the date
string and parse it; the sixth token is the label. -/
def parse_snapshot (snapshot : List Char) : Option Snapshot :=
  let initial_split := snapshot.splitOn '@'
  if initial_split.length ≠ 2 then none
  else
    let name_splinters := (initial_split.headD []).splitOn '/'
    let pool := name_splinters.headD []
    let dataset := initial_split.headD []
    let date_label_splinters := (initial_split.getD 1 []).splitOn '-'
    if date_label_splinters.length ≠ 6 then none
    else
      let label := date_label_splinters.getD (date_label_splinters.length - 1) []
      let date_string := List.intercalate ['-'] (date_label_splinters.take 5)
      match datetimeFromStr date_string with
      | none => none
      | some date => some (Snapshot.new pool dataset date label)

/-- Embedding of `get_parsed_snapshots`: parse every line, silently skipping rejects. -/
def get_parsed_snapshots (unparsed_snapshots : List (List Char)) : List Snapshot :=
  unparsed_snapshots.filterMap parse_snapshot

/-- Embedding of `get_snapshots_for`: filter by pool, and also by label when a label
filter is set. -/
def get_snapshots_for (pool label : List Char) (snapshots : List Snapshot) :
    List Snapshot :=
  if label.isEmpty then
    snapshots.filter (fun s => decide (s.pool = pool))
  else
    snapshots.filter (fun s => decide (s.pool = pool ∧ s.label = label))

/-- Embedding of `get_stale_snapshots`: keep the snapshots before the cutoff date. -/
def get_stale_snapshots (snapshots : List Snapshot) (cutoff_date : DT) : List Snapshot :=
  snapshots.filter (fun s => s.is_stale cutoff_date)

/-- Embedding of `remove_excluded_snapshots`: for each excluded snapshot, retain only the
candidates different from it. -/
def remove_excluded_snapshots (snapshots excluded_snapshots : List Snapshot) :
    List Snapshot :=
  excluded_snapshots.foldl (fun acc e => acc.filter (fun s => decide (s ≠ e))) snapshots

/-- One line of Rust's `str::lines`: a carriage return directly before the
line ending is stripped. -/
def stripCR (l : List Char) : List Char :=
  if l.getLast? = some '\r' then l.dropLast else l

/-- Model of Rust's `str::lines`: split at newlines, strip a `\r` before each
newline, and do not yield a final empty line for a trailing newline. -/
def rustLines (s : List Char) : List (List Char) :=
  let pieces := s.splitOn '\n'
  pieces.dropLast.map stripCR ++
    (match pieces.getLast? with
     | some [] => []
     | some last => [last]
     | none => [])

/-- Embedding of `get_snapshots_base` on an `Ok` collaborator result (the `Err` branch
panics): one snapshot string per line of the raw content. -/
def get_snapshots_base (results : List Char) : List (List Char) :=
  rustLines results

/-- Embedding of `get_excluded_snapshots`, with the collaborator's exclusion-file content
passed explicitly: parse it and scope it by the run's pool/label filter. -/
def get_excluded_snapshots (content : List Char) (config : Config) : List Snapshot :=
  get_snapshots_for config.pool config.label
    (get_parsed_snapshots (get_snapshots_base content))

/-- Embedding of `get_relevant_snapshots`, with the collaborator's raw snapshot listing
passed explicitly: parse, filter by pool/label, filter by staleness, then
subtract the exclusions. -/
def get_relevant_snapshots (listing : List Char) (config : Config)
    (excluded_snapshots : List Snapshot) : List Snapshot :=
  let unparsed_snapshots := get_snapshots_base listing
  let parsed_snapshots := get_parsed_snapshots unparsed_snapshots
  let snapshots := get_snapshots_for config.pool config.label parsed_snapshots
  let stale_snapshots := get_stale_snapshots snapshots config.date
  remove_excluded_snapshots stale_snapshots excluded_snapshots

/-! ### Batch destroyer (`lib.rs`) -/

/-- Embedding of `get_datasets`, with the `HashSet` iteration order modelled as
first-occurrence order. -/
def get_datasets (snapshots : List Snapshot) : List (List Char) :=
  snapshots.foldl (fun ds s => if s.dataset ∈ ds then ds else ds ++ [s.dataset]) []

/-- The loop body of `build_list_to_delete`: the first snapshot (empty
`names` so far) contributes its full `dataset@...` rendering, later ones only
their cached suffix, with commas between entries. -/
def build_list_go (names : List Char) : List Snapshot → List Char
  | [] => names
  | s :: rest =>
    let names1 := if names.isEmpty then names ++ snapshotDisplay s else names ++ s.suffix
    let names2 := if rest.isEmpty then names1 else names1 ++ [',']
    build_list_go names2 rest

/-- Embedding of `build_list_to_delete`: the comma-joined batched-destroy argument
`dataset@suffix1,suffix2,...`. -/
def build_list_to_delete (snapshots : List Snapshot) : List Char :=
  build_list_go [] snapshots

/-- The mutable state of `destroy_snapshots`.  `calls` additionally records
each destroy call issued to the collaborator (the flushed batch and the
string handed to `destroy_snapshots` on the communicator). -/
structure DestroyState where
  total_processed : Nat
  queued : List Snapshot
  deleted : List Snapshot
  calls : List (List Snapshot × List Char)
deriving DecidableEq

/-- The `cleaner` closure of `destroy_snapshots`: count the queued snapshots
as processed, issue one destroy call for the whole queue via
`build_and_destroy` (`none` models the panic when the collaborator fails),
and move the queue into the deleted accumulator. -/
def cleaner (destroyOk : List Char → Bool) (st : DestroyState) : Option DestroyState :=
  let call := build_list_to_delete st.queued
  if destroyOk call then
    some { total_processed := st.total_processed + st.queued.length,
           queued := [],
           deleted := st.deleted ++ st.queued,
           calls := st.calls ++ [(st.queued, call)] }
  else none

/-- The inner per-dataset loop of `destroy_snapshots`: push each snapshot and
flush whenever the queue length is an exact multiple of `iteration_amount`.
`none` for `iteration_amount = 0` models the Rust remainder-by-zero panic. -/
def push_loop (destroyOk : List Char → Bool) (iteration_amount : Nat)
    (st : DestroyState) : List Snapshot → Option DestroyState
  | [] => some st
  | s :: rest =>
    let st1 : DestroyState := { st with queued := st.queued ++ [s] }
    if iteration_amount = 0 then none
    else if st1.queued.length % iteration_amount = 0 then
      match cleaner destroyOk st1 with
      | none => none
      | some st2 => push_loop destroyOk iteration_amount st2 rest
    else push_loop destroyOk iteration_amount st1 rest

/-- One iteration of the dataset loop of `destroy_snapshots`: select this
dataset's snapshots, run the push loop, then empty the chamber. -/
def process_dataset (destroyOk : List Char → Bool) (iteration_amount : Nat)
    (snapshots : List Snapshot) (st : DestroyState) (dataset : List Char) :
    Option DestroyState :=
  let snapshots_for_dataset := snapshots.filter (fun s => decide (s.dataset = dataset))
  match push_loop destroyOk iteration_amount st snapshots_for_dataset with
  | none => none
  | some st2 => if st2.queued.isEmpty then some st2 else cleaner destroyOk st2

/-- The dataset loop of `destroy_snapshots`. -/
def process_datasets (destroyOk : List Char → Bool) (iteration_amount : Nat)
    (snapshots : List Snapshot) (st : DestroyState) :
    List (List Char) → Option DestroyState
  | [] => some st
  | d :: rest =>
    match process_dataset destroyOk iteration_amount snapshots st d with
    | none => none
    | some st2 => process_datasets destroyOk iteration_amount snapshots st2 rest

/-- Embedding of `destroy_snapshots`: group the candidates by dataset and delete them in
batches of `iteration_amount` per dataset.  The trailing non-empty-queue
check is the fatal internal-consistency panic of the Rust code. -/
def destroy_snapshots (destroyOk : List Char → Bool) (snapshots : List Snapshot)
    (iteration_amount : Nat) : Option DestroyState :=
  match process_datasets destroyOk iteration_amount snapshots
      { total_processed := 0, queued := [], deleted := [], calls := [] }
      (get_datasets snapshots) with
  | none => none
  | some st => if st.queued.isEmpty then some st else none

/-- Specification of the comma-joined suffix tail of `build_list_to_delete`
(everything the loop appends after the first snapshot's full rendering). -/
def sufJoin : List Snapshot → List Char
  | [] => []
  | s :: rest => s.suffix ++ ((if rest.isEmpty then [] else [',']) ++ sufJoin rest)

/-- A recorded destroy call is well formed: its batch is non-empty, all its
snapshots share one dataset, and the string handed to the collaborator is
`dataset@suffix1,suffix2,...` for that dataset. -/
def GoodCall (p : List Snapshot × List Char) : Prop :=
  ∃ dd, p.1 ≠ [] ∧ (∀ s ∈ p.1, s.dataset = dd) ∧
    p.2 = dd ++ '@' :: List.intercalate [','] (p.1.map Snapshot.suffix)

/-! ### Concrete fixtures used to instantiate the theorems -/

def fxPool : List Char := (r"tank").toList

def fxLabel : List Char := (r"CHECKPOINT").toList

def fxCutoff : DT := ⟨2020, 5, 1, 12, 0, 0⟩

def fxCutoffStr : List Char := (r"2020-05-01-1200-00").toList

def fxNow : DT := ⟨2020, 1, 1, 0, 0, 0⟩

def fxListing : List Char :=
  (r"tank@2020-01-01-2354-09-CHECKPOINT").toList ++
    '\n' :: (r"tank/home@2020-04-25-1300-15-CHECKPOINT").toList

def fxExcludeContent : List Char := (r"tank/home@2020-04-25-1300-15-CHECKPOINT").toList

def fxConfig : Config :=
  { pool := fxPool, date := fxCutoff, exclude_file := [], show_queued := false,
    show_excluded := false, dry_run := false, iteration_count := 100,
    no_confirm := false, label := [], show_config := false }

def fxSnapTank : Snapshot := Snapshot.new fxPool fxPool ⟨2020, 1, 1, 23, 54, 9⟩ fxLabel

def fxSnapHome : Snapshot :=
  Snapshot.new fxPool ((r"tank/home").toList) ⟨2020, 4, 25, 13, 0, 15⟩ fxLabel

def fxRawSlash : List Char := (r"/a@2020-08-12-1237-49-L").toList

def fxRawNoAt : List Char := (r"tank-2020").toList

/-! ### Lemmas: digits and padded numerals -/

theorem charVal_digitChar {d : Nat} (h : d < 10) : charVal (Nat.digitChar d) = d := by
  interval_cases d <;> decide

theorem isDigit_digitChar {d : Nat} (h : d < 10) : (Nat.digitChar d).isDigit = true := by
  interval_cases d <;> decide

theorem toDigitsCore_eq_natDigitsSpec (fuel : Nat) :
    ∀ n ds, n < fuel → Nat.toDigitsCore 10 fuel n ds = natDigitsSpec n ++ ds := by
  induction fuel with
  | zero => intro n ds h; omega
  | succ fuel ih =>
    intro n ds h
    rw [Nat.toDigitsCore]
    by_cases h10 : n / 10 = 0
    · rw [if_pos h10, natDigitsSpec, dif_pos (by omega)]
      have : n % 10 = n := Nat.mod_eq_of_lt (by omega)
      simp [this]
    · have hspec : natDigitsSpec n = natDigitsSpec (n / 10) ++ [Nat.digitChar (n % 10)] := by
        rw [natDigitsSpec]; exact dif_neg (by omega)
      rw [if_neg h10, ih (n / 10) _ (by omega), hspec]
      simp

theorem toDigits_eq_natDigitsSpec (n : Nat) : Nat.toDigits 10 n = natDigitsSpec n := by
  rw [Nat.toDigits, toDigitsCore_eq_natDigitsSpec (n + 1) n [] (Nat.lt_succ_self n),
    List.append_nil]

theorem digitsVal_foldl (cs : List Char) :
    ∀ a : Nat, cs.foldl (fun x c => 10 * x + charVal c) a = a * 10 ^ cs.length + digitsVal cs := by
  induction cs with
  | nil => intro a; simp [digitsVal]
  | cons c cs ih =>
    intro a
    have hv : digitsVal (c :: cs) = charVal c * 10 ^ cs.length + digitsVal cs := by
      have := ih (charVal c)
      simpa [digitsVal] using this
    simp only [List.foldl_cons, ih, hv, List.length_cons]
    ring

theorem digitsVal_append (a b : List Char) :
    digitsVal (a ++ b) = digitsVal a * 10 ^ b.length + digitsVal b := by
  simpa [digitsVal, List.foldl_append] using digitsVal_foldl b (digitsVal a)

theorem digitsVal_natDigitsSpec (n : Nat) : digitsVal (natDigitsSpec n) = n := by
  induction n using Nat.strong_induction_on with
  | _ n ih =>
    rw [natDigitsSpec]
    by_cases h : n < 10
    · simp [h, digitsVal, charVal_digitChar h]
    · rw [dif_neg h, digitsVal_append, ih (n / 10) (by omega)]
      have := Nat.mod_lt n (show 0 < 10 by omega)
      simp [digitsVal, charVal_digitChar this]
      omega

theorem natDigitsSpec_all_digits (n : Nat) : ∀ c ∈ natDigitsSpec n, c.isDigit = true := by
  induction n using Nat.strong_induction_on with
  | _ n ih =>
    rw [natDigitsSpec]
    by_cases h : n < 10
    · simpa [h] using isDigit_digitChar h
    · rw [dif_neg h]
      intro c hc
      rcases List.mem_append.mp hc with hc | hc
      · exact ih (n / 10) (by omega) c hc
      · have := Nat.mod_lt n (show 0 < 10 by omega)
        simp only [List.mem_singleton] at hc
        simpa [hc] using isDigit_digitChar this

theorem natDigitsSpec_length_le : ∀ k n : Nat, 0 < k → n < 10 ^ k →
    (natDigitsSpec n).length ≤ k := by
  intro k
  induction k with
  | zero => omega
  | succ k ih =>
    intro n _ hn
    rw [natDigitsSpec]
    by_cases h : n < 10
    · rw [dif_pos h]; simp
    · rw [dif_neg h]
      have hk : 0 < k := by
        by_contra hk0
        have : k = 0 := by omega
        subst this
        simp [pow_succ] at hn
        omega
      have : n / 10 < 10 ^ k := by
        rw [Nat.div_lt_iff_lt_mul (by omega)]
        calc n < 10 ^ (k + 1) := hn
          _ = 10 ^ k * 10 := by ring
      have hlen := ih (n / 10) hk this
      simp only [List.length_append, List.length_singleton]
      omega

theorem digitsVal_replicate_zero (k : Nat) (cs : List Char) :
    digitsVal (List.replicate k '0' ++ cs) = digitsVal cs := by
  induction k with
  | zero => simp
  | succ k ih =>
    have : charVal '0' = 0 := by decide
    simpa [digitsVal, List.replicate_succ, this] using ih

theorem padNum_length {w n : Nat} (hw : 0 < w) (h : n < 10 ^ w) :
    (padNum w n).length = w := by
  have := natDigitsSpec_length_le w n hw h
  simp [padNum, toDigits_eq_natDigitsSpec]
  omega

theorem digitsVal_padNum (w n : Nat) : digitsVal (padNum w n) = n := by
  rw [padNum, toDigits_eq_natDigitsSpec, digitsVal_replicate_zero, digitsVal_natDigitsSpec]

theorem mem_padNum_isDigit (w n : Nat) : ∀ c ∈ padNum w n, c.isDigit = true := by
  intro c hc
  rw [padNum, toDigits_eq_natDigitsSpec] at hc
  rcases List.mem_append.mp hc with hc | hc
  · have := List.eq_of_mem_replicate hc
    subst this; decide
  · exact natDigitsSpec_all_digits n c hc

theorem not_mem_padNum {w n : Nat} {c : Char} (hc : c.isDigit = false) : c ∉ padNum w n := by
  intro h
  rw [mem_padNum_isDigit w n c h] at hc
  cases hc

theorem parseFixed_padNum {w n : Nat} (hw : 0 < w) (h : n < 10 ^ w) :
    parseFixed w (padNum w n) = some n := by
  rw [parseFixed, if_pos, digitsVal_padNum]
  exact ⟨padNum_length hw h, List.all_eq_true.mpr (fun c hc => mem_padNum_isDigit w n c hc)⟩

/-! ### Lemmas: splitting on separators -/

theorem splitOn_no_sep {sep : Char} {a : List Char} (ha : sep ∉ a) : a.splitOn sep = [a] := by
  rw [List.splitOn]
  exact List.splitOnP_eq_single _ _ (fun x hx => by
    simp only [beq_iff_eq]
    intro hxs; subst hxs; exact ha hx)

theorem splitOn_append_sep {sep : Char} (a b : List Char) (ha : sep ∉ a) :
    (a ++ sep :: b).splitOn sep = a :: b.splitOn sep := by
  rw [List.splitOn, List.splitOnP_first _ _ (fun x hx => by
      simp only [beq_iff_eq]
      intro hxs; subst hxs; exact ha hx) sep (by simp), List.splitOn]

theorem splitOn_pair {sep : Char} {a b : List Char} (ha : sep ∉ a) (hb : sep ∉ b) :
    (a ++ sep :: b).splitOn sep = [a, b] := by
  rw [splitOn_append_sep a b ha, splitOn_no_sep hb]

theorem length_splitOn (c : Char) (l : List Char) : (l.splitOn c).length = l.count c + 1 := by
  induction l with
  | nil => simp
  | cons x xs ih =>
    rw [List.splitOn] at ih ⊢
    rw [List.splitOnP_cons]
    by_cases h : x = c
    · simp [h, List.count_cons, ih]
    · rcases hx : xs.splitOnP (· == c) with _ | ⟨hd, tl⟩
      · exact absurd hx (List.splitOnP_ne_nil _ xs)
      · simp only [beq_iff_eq, if_neg h, hx, List.modifyHead, List.length_cons] at ih ⊢
        simp [List.count_cons, h, ih]

theorem splitOn_headD_takeWhile (c : Char) (l : List Char) :
    (l.splitOn c).headD [] = l.takeWhile (fun x => !(x == c)) := by
  induction l with
  | nil => simp
  | cons x xs ih =>
    rw [List.splitOn] at ih ⊢
    rw [List.splitOnP_cons]
    by_cases h : x = c
    · simp [h, List.takeWhile_cons]
    · rcases hx : xs.splitOnP (· == c) with _ | ⟨hd, tl⟩
      · exact absurd hx (List.splitOnP_ne_nil _ xs)
      · simp only [beq_iff_eq, if_neg h, hx, List.modifyHead, List.headD_cons,
          List.takeWhile_cons] at ih ⊢
        simp [h, ih]

/-! ### Lemmas: the selection pipeline -/

theorem mem_get_snapshots_for {pool label : List Char} {snapshots : List Snapshot}
    {s : Snapshot} (h : s ∈ get_snapshots_for pool label snapshots) :
    s ∈ snapshots ∧ s.pool = pool ∧ (label.isEmpty = false → s.label = label) := by
  rw [get_snapshots_for] at h
  by_cases hl : label.isEmpty
  · rw [if_pos hl] at h
    rw [List.mem_filter, decide_eq_true_eq] at h
    exact ⟨h.1, h.2, by simp [hl]⟩
  · rw [if_neg hl] at h
    rw [List.mem_filter, decide_eq_true_eq] at h
    exact ⟨h.1, h.2.1, fun _ => h.2.2⟩

theorem mem_get_parsed_snapshots {l : List (List Char)} {s : Snapshot}
    (h : s ∈ get_parsed_snapshots l) : ∃ raw ∈ l, parse_snapshot raw = some s := by
  simpa [get_parsed_snapshots, List.mem_filterMap] using h

theorem mem_get_stale {snapshots : List Snapshot} {cutoff : DT} {s : Snapshot} :
    s ∈ get_stale_snapshots snapshots cutoff ↔
      s ∈ snapshots ∧ s.date.key < cutoff.key := by
  simp [get_stale_snapshots, List.mem_filter, Snapshot.is_stale]

theorem mem_remove_excluded {snapshots excluded : List Snapshot} {s : Snapshot}
    (h : s ∈ remove_excluded_snapshots snapshots excluded) :
    s ∈ snapshots ∧ ∀ e ∈ excluded, s ≠ e := by
  induction excluded generalizing snapshots with
  | nil => simpa [remove_excluded_snapshots] using h
  | cons e rest ih =>
    rw [remove_excluded_snapshots, List.foldl_cons] at h
    obtain ⟨hmem, hrest⟩ := ih (show s ∈ remove_excluded_snapshots _ rest from h)
    rw [List.mem_filter, decide_eq_true_eq] at hmem
    refine ⟨hmem.1, fun e' he' => ?_⟩
    rcases List.mem_cons.mp he' with rfl | he'
    · exact hmem.2
    · exact hrest e' he'

theorem parse_snapshot_inv {raw : List Char} {s : Snapshot}
    (h : parse_snapshot raw = some s) :
    ∃ date,
      datetimeFromStr (List.intercalate ['-']
          ((((raw.splitOn '@').getD 1 []).splitOn '-').take 5)) = some date ∧
      s = Snapshot.new ((((raw.splitOn '@').headD []).splitOn '/').headD [])
            ((raw.splitOn '@').headD []) date
            ((((raw.splitOn '@').getD 1 []).splitOn '-').getD
              ((((raw.splitOn '@').getD 1 []).splitOn '-').length - 1) []) := by
  rw [parse_snapshot] at h
  split at h
  · cases h
  · simp only [] at h
    split at h
    · cases h
    · split at h
      · cases h
      · next date hdt =>
        exact ⟨date, hdt, (Option.some.inj h).symm⟩

theorem parse_snapshot_derived {raw : List Char} {s : Snapshot}
    (h : parse_snapshot raw = some s) : s.Derived := by
  obtain ⟨date, -, rfl⟩ := parse_snapshot_inv h
  rfl

theorem semEq_eq {a b : Snapshot} (hab : a.semEq b) (ha : a.Derived) (hb : b.Derived) :
    a = b := by
  obtain ⟨h1, h2, h3, h4⟩ := hab
  cases a; cases b
  simp_all [Snapshot.Derived]

/-! ### Claims -/

/-- C5: `get_stale_snapshots` keeps exactly the snapshots whose timestamp is
strictly earlier than the cutoff; a snapshot whose timestamp equals the
cutoff is not stale and is excluded from the returned subset. -/
theorem c5_filter_stale_strict (snapshots : List Snapshot) (cutoff : DT) :
    (∀ s, s ∈ get_stale_snapshots snapshots cutoff ↔
        s ∈ snapshots ∧ s.date.key < cutoff.key) ∧
    (∀ s ∈ snapshots, s.date = cutoff → s ∉ get_stale_snapshots snapshots cutoff) := by
  refine ⟨fun s => mem_get_stale, fun s _ hdate hmem => ?_⟩
  rw [mem_get_stale, hdate] at hmem
  exact absurd hmem.2 (lt_irrefl _)

/-- Witness for C5 at a concrete snapshot whose timestamp equals the cutoff. -/
theorem c5_witness :
    Snapshot.new fxPool fxPool fxCutoff fxLabel ∉
      get_stale_snapshots [Snapshot.new fxPool fxPool fxCutoff fxLabel] fxCutoff :=
  (c5_filter_stale_strict [Snapshot.new fxPool fxPool fxCutoff fxLabel] fxCutoff).2
    (Snapshot.new fxPool fxPool fxCutoff fxLabel) (by simp) rfl

/-- C6: `parse_snapshot` rejects every input with zero or more than one `@`
(equivalently `count '@' ≠ 1`), and every input whose segment after the `@`
does not split on `-` into exactly six tokens. -/
theorem c6_parse_rejects (raw : List Char) :
    (raw.count '@' ≠ 1 → parse_snapshot raw = none) ∧
    (∀ pre suf, raw.splitOn '@' = [pre, suf] →
      (suf.splitOn '-').length ≠ 6 → parse_snapshot raw = none) := by
  constructor
  · intro h
    have h2 : (raw.splitOn '@').length ≠ 2 := by
      rw [length_splitOn]; omega
    simp [parse_snapshot, h2]
  · intro pre suf hsplit h6
    simp [parse_snapshot, hsplit, h6]

/-- Witness for C6: a string with no `@` at all, and one whose suffix has
two tokens, are both rejected. -/
theorem c6_witness :
    parse_snapshot fxRawNoAt = none ∧
    parse_snapshot ((r"boot@lol-x").toList) = none :=
  ⟨(c6_parse_rejects fxRawNoAt).1 (by decide),
    (c6_parse_rejects ((r"boot@lol-x").toList)).2 ((r"boot").toList) ((r"lol-x").toList)
      (by decide) (by decide)⟩

/-- C8 counterexample: `parse_snapshot` accepts `"/a@2020-08-12-1237-49-L"`
and produces a snapshot whose pool is the empty string while its dataset is
the non-empty `"/a"`, so the pool is not a non-empty prefix of the dataset. -/
theorem c8_counterexample :
    (parse_snapshot fxRawSlash).map Snapshot.pool = some [] ∧
    (parse_snapshot fxRawSlash).map Snapshot.dataset = some ((r"/a").toList) := by
  constructor <;> decide

/-- C8 (amended): for every raw string accepted by `parse_snapshot`, the
snapshot's pool field is a (possibly empty) prefix of its dataset field, and
equals the dataset when the dataset contains no `/`.  The pool is empty
exactly when the dataset segment is empty or starts with `/`. -/
theorem c8_amended_pool_leads_dataset (raw : List Char) (s : Snapshot)
    (h : parse_snapshot raw = some s) :
    (∃ t, s.pool ++ t = s.dataset) ∧ ('/' ∉ s.dataset → s.pool = s.dataset) := by
  obtain ⟨date, -, rfl⟩ := parse_snapshot_inv h
  set ds := (raw.splitOn '@').headD [] with hds
  have hpool : ((ds.splitOn '/').headD []) = ds.takeWhile (fun x => !(x == '/')) :=
    splitOn_headD_takeWhile '/' ds
  constructor
  · rw [Snapshot.new, hpool]
    exact List.takeWhile_prefix _
  · intro hslash
    rw [Snapshot.new] at hslash ⊢
    simp only at hslash ⊢
    rw [hpool]
    rw [List.takeWhile_eq_self_iff]
    intro c hc
    simp only [Bool.not_eq_true', beq_eq_false_iff_ne, ne_eq]
    intro hcs
    exact hslash (hcs ▸ hc)

/-- Witness for C8 (amended) at a nested dataset. -/
theorem c8_amended_witness :
    (∃ t, fxSnapHome.pool ++ t = fxSnapHome.dataset) ∧
    ('/' ∉ fxSnapHome.dataset → fxSnapHome.pool = fxSnapHome.dataset) :=
  c8_amended_pool_leads_dataset ((r"tank/home@2020-04-25-1300-15-CHECKPOINT").toList)
    fxSnapHome (by decide)

/-- C9: the exclusion resolver scopes the exclusion list with the run's own
pool/label filter: every member of the resulting exclusion set has the
configured pool, and the configured label whenever a label filter is set, so
an entry with a different pool or label is absent from the set. -/
theorem c9_exclusions_scoped (content : List Char) (config : Config) :
    ∀ e ∈ get_excluded_snapshots content config,
      e.pool = config.pool ∧ (config.label.isEmpty = false → e.label = config.label) := by
  intro e he
  rw [get_excluded_snapshots] at he
  exact (mem_get_snapshots_for he).2

/-- Witness for C9 at a concrete exclusion-file content. -/
theorem c9_witness :
    fxSnapHome.pool = fxConfig.pool ∧
    (fxConfig.label.isEmpty = false → fxSnapHome.label = fxConfig.label) :=
  c9_exclusions_scoped fxExcludeContent fxConfig fxSnapHome (by decide)

/-- C1 counterexample: `Config::new` does not reject an empty pool: with
`pool = ""` (and a valid cutoff date) it returns a `Configuration` whose pool
field is the empty string, instead of aborting. -/
theorem c1_counterexample :
    (Config.new (fun _ => true) fxNow [] fxCutoffStr [] false false false 100 false
        [] false).map Config.pool = some [] := by
  decide

theorem Config_new_success (fileExists : List Char → Bool) (now : DT)
    (pool date exclude_file : List Char) (sq se dr : Bool) (ic : Nat) (nc : Bool)
    (label : List Char) (sc : Bool) (dt : DT)
    (hne : date.isEmpty = false) (hdate : datetimeFromStr date = some dt)
    (hex : exclude_file.isEmpty = true ∨ fileExists exclude_file = true) :
    Config.new fileExists now pool date exclude_file sq se dr ic nc label sc =
      some { pool := pool, date := dt, exclude_file := exclude_file,
             show_queued := sq, show_excluded := se, dry_run := dr,
             iteration_count := ic, no_confirm := nc, label := label,
             show_config := sc } := by
  rw [Config.new, hne]
  simp only [Bool.false_eq_true, if_false, hdate]
  rcases hex with hex | hex <;> simp [hex]

/-- C1 (amended): `Config::new` performs no pool validation: for every pool
string (empty included), construction succeeds whenever the cutoff-date text
parses and the exclude file (when given) exists, storing the pool verbatim;
only the cutoff date and the exclude file are validated at construction. -/
theorem c1_amended_no_pool_validation (fileExists : List Char → Bool) (now : DT)
    (pool date exclude_file : List Char) (sq se dr : Bool) (ic : Nat) (nc : Bool)
    (label : List Char) (sc : Bool) (dt : DT)
    (hne : date.isEmpty = false) (hdate : datetimeFromStr date = some dt)
    (hex : exclude_file.isEmpty = true ∨ fileExists exclude_file = true) :
    Config.new fileExists now pool date exclude_file sq se dr ic nc label sc =
      some { pool := pool, date := dt, exclude_file := exclude_file,
             show_queued := sq, show_excluded := se, dry_run := dr,
             iteration_count := ic, no_confirm := nc, label := label,
             show_config := sc } :=
  Config_new_success fileExists now pool date exclude_file sq se dr ic nc label sc dt
    hne hdate hex

/-- Witness for C1 (amended): the empty pool is accepted. -/
theorem c1_amended_witness :
    Config.new (fun _ => true) fxNow [] fxCutoffStr [] false false false 100 false
        [] false =
      some { pool := [], date := fxCutoff, exclude_file := [], show_queued := false,
             show_excluded := false, dry_run := false, iteration_count := 100,
             no_confirm := false, label := [], show_config := false } :=
  c1_amended_no_pool_validation (fun _ => true) fxNow [] fxCutoffStr [] false false
    false 100 false [] false fxCutoff (by decide) (by decide) (Or.inl (by decide))

/-- C4: exclusion always wins regardless of staleness: no snapshot in the
final candidate list produced by `get_relevant_snapshots` is equal, on the
four semantic fields (pool, dataset, timestamp, label), to any member of the
exclusion set produced by `get_excluded_snapshots`. -/
theorem c4_exclusion_always_wins (listing content : List Char) (config : Config) :
    ∀ s ∈ get_relevant_snapshots listing config (get_excluded_snapshots content config),
      ∀ e ∈ get_excluded_snapshots content config, ¬s.semEq e := by
  intro s hs e he hsem
  rw [get_relevant_snapshots] at hs
  obtain ⟨hs_stale, hne⟩ := mem_remove_excluded hs
  have hsD : s.Derived := by
    rw [mem_get_stale] at hs_stale
    obtain ⟨raw, -, hp⟩ := mem_get_parsed_snapshots (mem_get_snapshots_for hs_stale.1).1
    exact parse_snapshot_derived hp
  have heD : e.Derived := by
    rw [get_excluded_snapshots] at he
    obtain ⟨raw, -, hp⟩ := mem_get_parsed_snapshots (mem_get_snapshots_for he).1
    exact parse_snapshot_derived hp
  exact hne e he (semEq_eq hsem hsD heD)

/-- Witness for C4: in a run where `tank/home@...` is both stale and
excluded, the surviving candidate is not semantically equal to it. -/
theorem c4_witness : ¬fxSnapTank.semEq fxSnapHome :=
  c4_exclusion_always_wins fxListing fxExcludeContent fxConfig fxSnapTank (by decide)
    fxSnapHome (by decide)

/-! ### Lemmas: the formatting/parsing round trip -/

theorem formatDT_tokens (t : DT) (label : List Char) :
    formatDT t ++ '-' :: label =
      List.intercalate ['-'] [padNum 4 t.year, padNum 2 t.month, padNum 2 t.day,
        padNum 2 t.hour ++ padNum 2 t.minute, padNum 2 t.second, label] := by
  simp [formatDT, List.intercalate, List.intersperse, List.append_assoc]

theorem dash_not_mem_padNum (w n : Nat) : '-' ∉ padNum w n :=
  not_mem_padNum (by decide)

theorem daysInMonth_le (y m : Nat) : daysInMonth y m ≤ 31 := by
  rw [daysInMonth]
  split
  · split <;> omega
  · split <;> omega

theorem mem_formatDT {t : DT} {c : Char} (h : c ∈ formatDT t) :
    c.isDigit = true ∨ c = '-' := by
  have hp : ∀ w n, c ∈ padNum w n → c.isDigit = true ∨ c = '-' :=
    fun w n hc => Or.inl (mem_padNum_isDigit w n c hc)
  rw [formatDT] at h
  rcases List.mem_append.mp h with h | h
  · exact hp _ _ h
  rcases List.mem_cons.mp h with rfl | h
  · exact Or.inr rfl
  rcases List.mem_append.mp h with h | h
  · exact hp _ _ h
  rcases List.mem_cons.mp h with rfl | h
  · exact Or.inr rfl
  rcases List.mem_append.mp h with h | h
  · exact hp _ _ h
  rcases List.mem_cons.mp h with rfl | h
  · exact Or.inr rfl
  rcases List.mem_append.mp h with h | h
  · rcases List.mem_append.mp h with h | h
    · exact hp _ _ h
    · exact hp _ _ h
  rcases List.mem_cons.mp h with rfl | h
  · exact Or.inr rfl
  · exact hp _ _ h

theorem at_not_mem_suffix {t : DT} {label : List Char} (hlb : '@' ∉ label) :
    '@' ∉ formatDT t ++ '-' :: label := by
  intro h
  rcases List.mem_append.mp h with h | h
  · rcases mem_formatDT h with h | h
    · cases h
    · cases h
  · rcases List.mem_cons.mp h with h | h
    · cases h
    · exact hlb h

theorem parseFixed_pad_pair {a b : Nat} (ha : a < 100) (hb : b < 100) :
    parseFixed 4 (padNum 2 a ++ padNum 2 b) = some (a * 100 + b) := by
  have hla : (padNum 2 a).length = 2 := padNum_length (by omega) (by omega)
  have hlb : (padNum 2 b).length = 2 := padNum_length (by omega) (by omega)
  rw [parseFixed, if_pos, digitsVal_append, digitsVal_padNum, digitsVal_padNum, hlb]
  · norm_num
  · constructor
    · rw [List.length_append, hla, hlb]
    · rw [List.all_append, Bool.and_eq_true]
      exact ⟨List.all_eq_true.mpr (mem_padNum_isDigit 2 a),
        List.all_eq_true.mpr (mem_padNum_isDigit 2 b)⟩

theorem datetimeFromStr_format {t : DT} (h : t.InRange) :
    datetimeFromStr (List.intercalate ['-'] [padNum 4 t.year, padNum 2 t.month,
      padNum 2 t.day, padNum 2 t.hour ++ padNum 2 t.minute, padNum 2 t.second]) =
      some t := by
  obtain ⟨hy, hm1, hm2, hd1, hd2, hh, hmi, hs⟩ := h
  have hsplit : (List.intercalate ['-'] [padNum 4 t.year, padNum 2 t.month,
      padNum 2 t.day, padNum 2 t.hour ++ padNum 2 t.minute, padNum 2 t.second]).splitOn '-'
      = [padNum 4 t.year, padNum 2 t.month, padNum 2 t.day,
         padNum 2 t.hour ++ padNum 2 t.minute, padNum 2 t.second] := by
    refine List.splitOn_intercalate _ '-' ?_ (by simp)
    intro l hl
    simp only [List.mem_cons, List.not_mem_nil, or_false] at hl
    rcases hl with rfl | rfl | rfl | rfl | rfl
    · exact dash_not_mem_padNum 4 t.year
    · exact dash_not_mem_padNum 2 t.month
    · exact dash_not_mem_padNum 2 t.day
    · intro hmem
      rcases List.mem_append.mp hmem with hmem | hmem
      · exact dash_not_mem_padNum 2 t.hour hmem
      · exact dash_not_mem_padNum 2 t.minute hmem
    · exact dash_not_mem_padNum 2 t.second
  rw [datetimeFromStr, hsplit]
  dsimp only
  rw [parseFixed_padNum (by omega) (by omega), parseFixed_padNum (by omega) (by omega),
    parseFixed_padNum (by omega)
      (by have := daysInMonth_le t.year t.month; omega),
    parseFixed_pad_pair (by omega) (by omega), parseFixed_padNum (by omega) (by omega)]
  dsimp only
  have hdiv : (t.hour * 100 + t.minute) / 100 = t.hour := by omega
  have hmod : (t.hour * 100 + t.minute) % 100 = t.minute := by omega
  rw [hdiv, hmod, if_pos ⟨hm1, hm2, hd1, hd2, hh, hmi, hs⟩]

/-- C7: for every valid raw identifier built from a dataset path, an in-range
timestamp and a label in the canonical 6-token wire format, `parse_snapshot`
succeeds and round-trips: the parsed snapshot carries exactly that timestamp
and label, and its derived suffix reconstructs the original segment after the
`@`. -/
theorem c7_parse_roundtrip (dsPath label : List Char) (t : DT)
    (hds : '@' ∉ dsPath) (hlb1 : '@' ∉ label) (hlb2 : '-' ∉ label)
    (hr : t.InRange) :
    parse_snapshot (dsPath ++ '@' :: (formatDT t ++ '-' :: label)) =
      some (Snapshot.new ((dsPath.splitOn '/').headD []) dsPath t label) ∧
    (Snapshot.new ((dsPath.splitOn '/').headD []) dsPath t label).suffix =
      formatDT t ++ '-' :: label := by
  refine ⟨?_, rfl⟩
  have hsplit1 : (dsPath ++ '@' :: (formatDT t ++ '-' :: label)).splitOn '@' =
      [dsPath, formatDT t ++ '-' :: label] :=
    splitOn_pair hds (at_not_mem_suffix hlb1)
  have htokens : (formatDT t ++ '-' :: label).splitOn '-' =
      [padNum 4 t.year, padNum 2 t.month, padNum 2 t.day,
       padNum 2 t.hour ++ padNum 2 t.minute, padNum 2 t.second, label] := by
    rw [formatDT_tokens]
    refine List.splitOn_intercalate _ '-' ?_ (by simp)
    intro l hl
    simp only [List.mem_cons, List.not_mem_nil, or_false] at hl
    rcases hl with rfl | rfl | rfl | rfl | rfl | rfl
    · exact dash_not_mem_padNum 4 t.year
    · exact dash_not_mem_padNum 2 t.month
    · exact dash_not_mem_padNum 2 t.day
    · intro hmem
      rcases List.mem_append.mp hmem with hmem | hmem
      · exact dash_not_mem_padNum 2 t.hour hmem
      · exact dash_not_mem_padNum 2 t.minute hmem
    · exact dash_not_mem_padNum 2 t.second
    · exact hlb2
  set toks : List (List Char) := [padNum 4 t.year, padNum 2 t.month, padNum 2 t.day,
    padNum 2 t.hour ++ padNum 2 t.minute, padNum 2 t.second, label] with htoks
  rw [parse_snapshot, hsplit1]
  dsimp only
  have hlen2 : ¬([dsPath, formatDT t ++ '-' :: label].length ≠ 2) := by simp
  rw [if_neg hlen2]
  have hheadD : ([dsPath, formatDT t ++ '-' :: label].headD []) = dsPath := rfl
  have hgetD1 : ([dsPath, formatDT t ++ '-' :: label].getD 1 []) =
    formatDT t ++ '-' :: label := rfl
  rw [hheadD, hgetD1, htokens]
  have hlen6 : ¬(toks.length ≠ 6) := by rw [htoks]; simp
  rw [if_neg hlen6]
  have hlabel : toks.getD (toks.length - 1) [] = label := rfl
  have htake : toks.take 5 = [padNum 4 t.year, padNum 2 t.month, padNum 2 t.day,
    padNum 2 t.hour ++ padNum 2 t.minute, padNum 2 t.second] := rfl
  rw [hlabel, htake, datetimeFromStr_format hr]

/-- Witness for C7 at the canonical example identifier. -/
theorem c7_witness :
    parse_snapshot (fxPool ++ '@' :: (formatDT ⟨2020, 8, 12, 12, 37, 49⟩ ++
        '-' :: (r"L").toList)) =
      some (Snapshot.new ((fxPool.splitOn '/').headD []) fxPool
        ⟨2020, 8, 12, 12, 37, 49⟩ ((r"L").toList)) :=
  (c7_parse_roundtrip fxPool ((r"L").toList) ⟨2020, 8, 12, 12, 37, 49⟩ (by decide)
    (by decide) (by decide) (by decide)).1

/-! ### Lemmas: the batch destroyer -/

theorem cleaner_eq_of_ok {destroyOk : List Char → Bool} {st : DestroyState}
    (hok : destroyOk (build_list_to_delete st.queued) = true) :
    cleaner destroyOk st =
      some { total_processed := st.total_processed + st.queued.length, queued := [],
             deleted := st.deleted ++ st.queued,
             calls := st.calls ++ [(st.queued, build_list_to_delete st.queued)] } := by
  rw [cleaner]
  simp only [hok, if_true]

theorem cleaner_some_inv {destroyOk : List Char → Bool} {st st' : DestroyState}
    (h : cleaner destroyOk st = some st') :
    st' = { total_processed := st.total_processed + st.queued.length, queued := [],
            deleted := st.deleted ++ st.queued,
            calls := st.calls ++ [(st.queued, build_list_to_delete st.queued)] } := by
  rw [cleaner] at h
  split at h
  · exact (Option.some.inj h).symm
  · cases h

theorem push_loop_total {destroyOk : List Char → Bool} {iter : Nat}
    (hok : ∀ c, destroyOk c = true) (h1 : 1 ≤ iter) :
    ∀ (l : List Snapshot) (st : DestroyState), ∃ st',
      push_loop destroyOk iter st l = some st' ∧
      st'.deleted ++ st'.queued = st.deleted ++ st.queued ++ l := by
  intro l
  induction l with
  | nil => intro st; exact ⟨st, rfl, by simp⟩
  | cons s rest ih =>
    intro st
    rw [push_loop]
    rw [if_neg (by omega)]
    by_cases hq : ((st.queued ++ [s]).length % iter = 0)
    · rw [if_pos hq]
      rw [cleaner_eq_of_ok (hok _)]
      obtain ⟨st', hrun, hdel⟩ := ih _
      refine ⟨st', hrun, ?_⟩
      rw [hdel]
      simp [List.append_assoc]
    · rw [if_neg hq]
      obtain ⟨st', hrun, hdel⟩ := ih _
      refine ⟨st', hrun, ?_⟩
      rw [hdel]
      simp [List.append_assoc]

theorem process_dataset_total {destroyOk : List Char → Bool} {iter : Nat}
    (hok : ∀ c, destroyOk c = true) (h1 : 1 ≤ iter)
    (snapshots : List Snapshot) (d : List Char) (st : DestroyState) :
    ∃ st', process_dataset destroyOk iter snapshots st d = some st' ∧
      st'.queued = [] ∧
      st'.deleted = st.deleted ++ st.queued ++
        snapshots.filter (fun s => decide (s.dataset = d)) := by
  obtain ⟨st1, hrun, hdel⟩ :=
    push_loop_total hok h1 (snapshots.filter (fun s => decide (s.dataset = d))) st
  rw [process_dataset, hrun]
  dsimp only
  by_cases hq : st1.queued.isEmpty
  · rw [if_pos hq]
    have hq' : st1.queued = [] := List.isEmpty_iff.mp hq
    exact ⟨st1, rfl, hq', by rw [← hdel, hq']; simp⟩
  · rw [if_neg hq]
    rw [cleaner_eq_of_ok (hok _)]
    exact ⟨_, rfl, rfl, by rw [← hdel]⟩

theorem process_datasets_total {destroyOk : List Char → Bool} {iter : Nat}
    (hok : ∀ c, destroyOk c = true) (h1 : 1 ≤ iter) (snapshots : List Snapshot) :
    ∀ (ds : List (List Char)) (st : DestroyState), st.queued = [] → ∃ st',
      process_datasets destroyOk iter snapshots st ds = some st' ∧ st'.queued = [] ∧
      st'.deleted = st.deleted ++
        (ds.map (fun d => snapshots.filter (fun s => decide (s.dataset = d)))).flatten := by
  intro ds
  induction ds with
  | nil => intro st hq; exact ⟨st, rfl, hq, by simp⟩
  | cons d rest ih =>
    intro st hq
    obtain ⟨st1, hpd, hq1, hdel1⟩ := process_dataset_total hok h1 snapshots d st
    obtain ⟨st', hrest, hq', hdel'⟩ := ih st1 hq1
    refine ⟨st', ?_, hq', ?_⟩
    · rw [process_datasets, hpd]
      exact hrest
    · rw [hdel', hdel1, hq]
      simp [List.append_assoc]

theorem get_datasets_foldl_acc (l : List Snapshot) :
    ∀ acc, ∃ t2,
      l.foldl (fun ds s => if s.dataset ∈ ds then ds else ds ++ [s.dataset]) acc =
        acc ++ t2 := by
  induction l with
  | nil => intro acc; exact ⟨[], by simp⟩
  | cons s rest ih =>
    intro acc
    rw [List.foldl_cons]
    by_cases h : s.dataset ∈ acc
    · rw [if_pos h]; exact ih acc
    · rw [if_neg h]
      obtain ⟨t2, ht⟩ := ih (acc ++ [s.dataset])
      exact ⟨[s.dataset] ++ t2, by rw [ht]; simp⟩

theorem get_datasets_cons (s : Snapshot) (rest : List Snapshot) :
    ∃ t2, get_datasets (s :: rest) = s.dataset :: t2 := by
  rw [get_datasets, List.foldl_cons]
  have h0 : (if s.dataset ∈ ([] : List (List Char)) then ([] : List (List Char))
      else [] ++ [s.dataset]) = [s.dataset] := by simp
  rw [h0]
  obtain ⟨t2, ht⟩ := get_datasets_foldl_acc rest [s.dataset]
  exact ⟨t2, by rw [ht]; rfl⟩

theorem mem_get_datasets {snapshots : List Snapshot} {s : Snapshot} (h : s ∈ snapshots) :
    s.dataset ∈ get_datasets snapshots := by
  rw [get_datasets]
  suffices H : ∀ (l : List Snapshot) (acc : List (List Char)),
      (s.dataset ∈ acc ∨ s ∈ l) →
      s.dataset ∈ l.foldl (fun ds x => if x.dataset ∈ ds then ds else ds ++ [x.dataset]) acc
    from H snapshots [] (Or.inr h)
  intro l
  induction l with
  | nil =>
    intro acc hacc
    rcases hacc with hacc | hacc
    · simpa using hacc
    · cases hacc
  | cons x rest ih =>
    intro acc hacc
    rw [List.foldl_cons]
    by_cases hx : x.dataset ∈ acc
    · rw [if_pos hx]
      apply ih
      rcases hacc with hacc | hacc
      · exact Or.inl hacc
      · rcases List.mem_cons.mp hacc with rfl | hmem
        · exact Or.inl hx
        · exact Or.inr hmem
    · rw [if_neg hx]
      apply ih
      rcases hacc with hacc | hacc
      · exact Or.inl (List.mem_append.mpr (Or.inl hacc))
      · rcases List.mem_cons.mp hacc with rfl | hmem
        · exact Or.inl (by simp)
        · exact Or.inr hmem

theorem build_list_go_nonempty (l : List Snapshot) :
    ∀ names : List Char, names ≠ [] → build_list_go names l = names ++ sufJoin l := by
  induction l with
  | nil => intro names _; rw [build_list_go, sufJoin, List.append_nil]
  | cons s rest ih =>
    intro names hne
    rw [build_list_go]
    have hne' : names.isEmpty = false := by
      rcases names with _ | ⟨c, cs⟩
      · exact absurd rfl hne
      · rfl
    rw [hne']
    simp only [Bool.false_eq_true, if_false]
    rcases rest with _ | ⟨r, rest'⟩
    · rw [sufJoin]
      simp [build_list_go, sufJoin]
    · have hr : ((r :: rest').isEmpty) = false := rfl
      rw [hr]
      simp only [Bool.false_eq_true, if_false]
      rw [ih _ (by simp)]
      conv_rhs => rw [sufJoin, hr]
      simp [List.append_assoc]

theorem sufJoin_eq_intercalate (l : List Snapshot) :
    sufJoin l = List.intercalate [','] (l.map Snapshot.suffix) := by
  induction l with
  | nil => rfl
  | cons s rest ih =>
    rcases rest with _ | ⟨r, rest'⟩
    · simp [sufJoin, List.intercalate]
    · rw [sufJoin, ih]
      simp [List.intercalate, List.intersperse]

theorem build_list_to_delete_eq {q : List Snapshot} {dd : List Char}
    (hne : q ≠ []) (hder : ∀ s ∈ q, s.Derived) (hdat : ∀ s ∈ q, s.dataset = dd) :
    build_list_to_delete q =
      dd ++ '@' :: List.intercalate [','] (q.map Snapshot.suffix) := by
  obtain ⟨h, t, rfl⟩ := List.exists_cons_of_ne_nil hne
  have hdisp : snapshotDisplay h = dd ++ '@' :: h.suffix := by
    rw [snapshotDisplay, ← hder h (by simp), hdat h (by simp)]
  rw [← sufJoin_eq_intercalate, build_list_to_delete]
  show build_list_go (if t.isEmpty = true then snapshotDisplay h
    else snapshotDisplay h ++ [',']) t = dd ++ '@' :: sufJoin (h :: t)
  rcases t with _ | ⟨r, rest'⟩
  · rw [build_list_go]
    simp [sufJoin, hdisp]
  · have hr : ((r :: rest').isEmpty) = false := rfl
    rw [hr]
    simp only [Bool.false_eq_true, if_false]
    rw [build_list_go_nonempty _ _ (by rw [hdisp]; simp)]
    conv_rhs => rw [sufJoin, hr]
    rw [hdisp]
    simp [List.append_assoc]

theorem push_loop_calls {destroyOk : List Char → Bool} {iter : Nat} {dd : List Char} :
    ∀ (l : List Snapshot) (st st' : DestroyState),
      push_loop destroyOk iter st l = some st' →
      (∀ s ∈ st.queued, s.dataset = dd ∧ s.Derived) →
      (∀ s ∈ l, s.dataset = dd ∧ s.Derived) →
      (∀ p ∈ st.calls, GoodCall p) →
      (∀ p ∈ st'.calls, GoodCall p) ∧ (∀ s ∈ st'.queued, s.dataset = dd ∧ s.Derived) := by
  intro l
  induction l with
  | nil =>
    intro st st' h hqueue _ hcalls
    rw [push_loop] at h
    cases h
    exact ⟨hcalls, hqueue⟩
  | cons s rest ih =>
    intro st st' h hqueue hl hcalls
    have hq1 : ∀ x ∈ st.queued ++ [s], x.dataset = dd ∧ x.Derived := by
      intro x hx
      rcases List.mem_append.mp hx with hx | hx
      · exact hqueue x hx
      · rcases List.mem_singleton.mp hx with rfl
        exact hl x (by simp)
    have hrest : ∀ x ∈ rest, x.dataset = dd ∧ x.Derived :=
      fun x hx => hl x (List.mem_cons_of_mem s hx)
    rw [push_loop] at h
    split at h
    · cases h
    · split at h
      · rcases hcl : cleaner destroyOk { st with queued := st.queued ++ [s] } with _ | st2
        · rw [hcl] at h; cases h
        · rw [hcl] at h
          have hshape := cleaner_some_inv hcl
          refine ih st2 st' h ?_ hrest ?_
          · rw [hshape]
            intro x hx
            cases hx
          · rw [hshape]
            intro p hp
            rcases List.mem_append.mp hp with hp | hp
            · exact hcalls p hp
            · rcases List.mem_singleton.mp hp with rfl
              refine ⟨dd, by simp, fun x hx => (hq1 x hx).1, ?_⟩
              exact build_list_to_delete_eq (by simp) (fun x hx => (hq1 x hx).2)
                (fun x hx => (hq1 x hx).1)
      · exact ih _ st' h hq1 hrest hcalls

theorem process_dataset_calls {destroyOk : List Char → Bool} {iter : Nat}
    {snapshots : List Snapshot} {d : List Char} {st st' : DestroyState}
    (h : process_dataset destroyOk iter snapshots st d = some st')
    (hder : ∀ s ∈ snapshots, s.Derived)
    (hq : st.queued = [])
    (hcalls : ∀ p ∈ st.calls, GoodCall p) :
    (∀ p ∈ st'.calls, GoodCall p) ∧ st'.queued = [] := by
  have hfil : ∀ s ∈ snapshots.filter (fun s => decide (s.dataset = d)),
      s.dataset = d ∧ s.Derived := by
    intro s hs
    rw [List.mem_filter, decide_eq_true_eq] at hs
    exact ⟨hs.2, hder s hs.1⟩
  rw [process_dataset] at h
  rcases hpl : push_loop destroyOk iter st
      (snapshots.filter (fun s => decide (s.dataset = d))) with _ | st1
  · rw [hpl] at h; cases h
  · rw [hpl] at h
    dsimp only at h
    obtain ⟨hcalls1, hqueue1⟩ :=
      push_loop_calls _ st st1 hpl (by rw [hq]; intro x hx; cases hx) hfil hcalls
    by_cases hq1 : st1.queued.isEmpty
    · rw [if_pos hq1] at h
      cases h
      exact ⟨hcalls1, List.isEmpty_iff.mp hq1⟩
    · rw [if_neg hq1] at h
      have hshape := cleaner_some_inv h
      rw [hshape]
      refine ⟨?_, rfl⟩
      intro p hp
      rcases List.mem_append.mp hp with hp | hp
      · exact hcalls1 p hp
      · rcases List.mem_singleton.mp hp with rfl
        have hqne : st1.queued ≠ [] := fun hnil => hq1 (by rw [hnil]; rfl)
        exact ⟨d, hqne, fun x hx => (hqueue1 x hx).1,
          build_list_to_delete_eq hqne (fun x hx => (hqueue1 x hx).2)
            (fun x hx => (hqueue1 x hx).1)⟩

theorem process_datasets_calls {destroyOk : List Char → Bool} {iter : Nat}
    {snapshots : List Snapshot} (hder : ∀ s ∈ snapshots, s.Derived) :
    ∀ (ds : List (List Char)) (st st' : DestroyState),
      process_datasets destroyOk iter snapshots st ds = some st' →
      st.queued = [] → (∀ p ∈ st.calls, GoodCall p) →
      ∀ p ∈ st'.calls, GoodCall p := by
  intro ds
  induction ds with
  | nil =>
    intro st st' h hq hcalls
    rw [process_datasets] at h
    cases h
    exact hcalls
  | cons d rest ih =>
    intro st st' h hq hcalls
    rw [process_datasets] at h
    rcases hpd : process_dataset destroyOk iter snapshots st d with _ | st1
    · rw [hpd] at h; cases h
    · rw [hpd] at h
      obtain ⟨hcalls1, hq1⟩ := process_dataset_calls hpd hder hq hcalls
      exact ih st1 st' h hq1 hcalls1

/-- C2: with four candidates sharing one dataset and batch size 2,
`destroy_snapshots` issues exactly two destroy calls of two snapshots each
and returns the full candidate list; in general, whenever every destroy call
succeeds and the batch size is positive, every candidate appears in the
returned deleted list. -/
theorem c2_batching :
    (∀ (A B C D : Snapshot) (destroyOk : List Char → Bool),
      B.dataset = A.dataset → C.dataset = A.dataset → D.dataset = A.dataset →
      (∀ c, destroyOk c = true) →
      ∃ st, destroy_snapshots destroyOk [A, B, C, D] 2 = some st ∧
        st.calls.map Prod.fst = [[A, B], [C, D]] ∧ st.deleted = [A, B, C, D]) ∧
    (∀ (snapshots : List Snapshot) (destroyOk : List Char → Bool) (iter : Nat),
      1 ≤ iter → (∀ c, destroyOk c = true) →
      ∃ st, destroy_snapshots destroyOk snapshots iter = some st ∧
        ∀ s ∈ snapshots, s ∈ st.deleted) := by
  constructor
  · intro A B C D destroyOk hB hC hD hok
    have hds : get_datasets [A, B, C, D] = [A.dataset] := by
      simp [get_datasets, hB, hC, hD]
    have hfil : [A, B, C, D].filter (fun s => decide (s.dataset = A.dataset)) =
        [A, B, C, D] := by
      simp [List.filter, hB, hC, hD]
    refine ⟨{ total_processed := 4, queued := [], deleted := [A, B, C, D],
              calls := [([A, B], build_list_to_delete [A, B]),
                        ([C, D], build_list_to_delete [C, D])] }, ?_, by simp, by simp⟩
    rw [destroy_snapshots, hds, process_datasets, process_dataset, hfil]
    simp [push_loop, cleaner, hok, process_datasets]
  · intro snapshots destroyOk iter h1 hok
    obtain ⟨st, hrun, hq, hdel⟩ := process_datasets_total hok h1 snapshots
      (get_datasets snapshots)
      { total_processed := 0, queued := [], deleted := [], calls := [] } rfl
    refine ⟨st, ?_, ?_⟩
    · rw [destroy_snapshots, hrun]
      dsimp only
      rw [if_pos (show st.queued.isEmpty = true by rw [hq]; rfl)]
    · intro s hs
      rw [hdel]
      refine List.mem_append.mpr (Or.inr ?_)
      refine List.mem_flatten.mpr ⟨_, List.mem_map.mpr ⟨s.dataset, mem_get_datasets hs, rfl⟩, ?_⟩
      exact List.mem_filter.mpr ⟨hs, by simp⟩

/-- Witness for C2 at four concrete snapshots of one dataset. -/
theorem c2_witness :
    ∃ st, destroy_snapshots (fun _ => true)
        [fxSnapTank, fxSnapTank, fxSnapTank, fxSnapTank] 2 = some st ∧
      st.calls.map Prod.fst = [[fxSnapTank, fxSnapTank], [fxSnapTank, fxSnapTank]] ∧
      st.deleted = [fxSnapTank, fxSnapTank, fxSnapTank, fxSnapTank] :=
  c2_batching.1 fxSnapTank fxSnapTank fxSnapTank fxSnapTank (fun _ => true)
    rfl rfl rfl (fun _ => rfl)

/-- C3: batching never mixes datasets: for every candidate list of
program-constructed snapshots and every positive batch size, every destroy
call recorded in a successful `destroy_snapshots` run has a non-empty batch
whose snapshots all share one dataset, and its string has the form
`dataset@suffix1,suffix2,...` for that single dataset. -/
theorem c3_batches_single_dataset (snapshots : List Snapshot) (iter : Nat)
    (destroyOk : List Char → Bool) (st : DestroyState)
    (_h1 : 1 ≤ iter) (hder : ∀ s ∈ snapshots, s.Derived)
    (h : destroy_snapshots destroyOk snapshots iter = some st) :
    ∀ p ∈ st.calls, ∃ dd, p.1 ≠ [] ∧ (∀ s ∈ p.1, s.dataset = dd) ∧
      p.2 = dd ++ '@' :: List.intercalate [','] (p.1.map Snapshot.suffix) := by
  rw [destroy_snapshots] at h
  rcases hrun : process_datasets destroyOk iter snapshots
      { total_processed := 0, queued := [], deleted := [], calls := [] }
      (get_datasets snapshots) with _ | st1
  · rw [hrun] at h; cases h
  · rw [hrun] at h
    dsimp only at h
    by_cases hq : st1.queued.isEmpty
    · rw [if_pos hq] at h
      cases h
      exact process_datasets_calls hder (get_datasets snapshots) _ _ hrun rfl
        (fun p hp => by cases hp)
    · rw [if_neg hq] at h
      cases h

/-- Witness for C3: in a concrete two-dataset run, the first issued destroy
call's string is its dataset followed by `@` and the comma-joined suffixes. -/
theorem c3_witness :
    build_list_to_delete [fxSnapTank] =
      fxSnapTank.dataset ++ '@' ::
        List.intercalate [','] ([fxSnapTank].map Snapshot.suffix) := by
  obtain ⟨dd, -, hdd, hstr⟩ :=
    c3_batches_single_dataset [fxSnapTank, fxSnapHome] 1 (fun _ => true)
      { total_processed := 2, queued := [],
        deleted := [fxSnapTank, fxSnapHome],
        calls := [([fxSnapTank], build_list_to_delete [fxSnapTank]),
                  ([fxSnapHome], build_list_to_delete [fxSnapHome])] }
      (by omega)
      (by intro s hs
          rcases List.mem_cons.mp hs with rfl | hs
          · rfl
          · rcases List.mem_cons.mp hs with rfl | hs
            · rfl
            · cases hs)
      (by decide)
      ([fxSnapTank], build_list_to_delete [fxSnapTank]) (by decide)
  rw [(hdd fxSnapTank (by decide)).symm] at hstr
  exact hstr

/-- C10: `destroy_snapshots` is total for every positive batch size when the
collaborator succeeds, but with batch size 0 and a non-empty candidate list
it hits the remainder-by-zero panic as soon as the first snapshot is queued;
`Config::new` does not validate the batch size and accepts 0. -/
theorem c10_zero_batch_size_panics :
    (∀ (snapshots : List Snapshot) (destroyOk : List Char → Bool) (iter : Nat),
      1 ≤ iter → (∀ c, destroyOk c = true) →
      (destroy_snapshots destroyOk snapshots iter).isSome = true) ∧
    (∀ (snapshots : List Snapshot) (destroyOk : List Char → Bool),
      snapshots ≠ [] → destroy_snapshots destroyOk snapshots 0 = none) ∧
    (∀ (fileExists : List Char → Bool) (now : DT)
      (pool date exclude_file : List Char) (sq se dr nc : Bool)
      (label : List Char) (sc : Bool) (dt : DT),
      date.isEmpty = false → datetimeFromStr date = some dt →
      (exclude_file.isEmpty = true ∨ fileExists exclude_file = true) →
      ∃ cfg, Config.new fileExists now pool date exclude_file sq se dr 0 nc label sc =
        some cfg ∧ cfg.iteration_count = 0) := by
  refine ⟨?_, ?_, ?_⟩
  · intro snapshots destroyOk iter h1 hok
    obtain ⟨st, hrun, hq, -⟩ := process_datasets_total hok h1 snapshots
      (get_datasets snapshots)
      { total_processed := 0, queued := [], deleted := [], calls := [] } rfl
    rw [destroy_snapshots, hrun]
    dsimp only
    rw [if_pos (show st.queued.isEmpty = true by rw [hq]; rfl)]
    rfl
  · intro snapshots destroyOk hne
    obtain ⟨s, rest, rfl⟩ := List.exists_cons_of_ne_nil hne
    obtain ⟨t2, hds⟩ := get_datasets_cons s rest
    have hmem : s ∈ (s :: rest).filter (fun x => decide (x.dataset = s.dataset)) :=
      List.mem_filter.mpr ⟨by simp, by simp⟩
    obtain ⟨x, xs, hxx⟩ := List.exists_cons_of_ne_nil (List.ne_nil_of_mem hmem)
    have hpl : push_loop destroyOk 0
        { total_processed := 0, queued := [], deleted := [], calls := [] }
        ((s :: rest).filter (fun x => decide (x.dataset = s.dataset))) = none := by
      rw [hxx, push_loop, if_pos rfl]
    have hpd : process_dataset destroyOk 0 (s :: rest)
        { total_processed := 0, queued := [], deleted := [], calls := [] }
        s.dataset = none := by
      rw [process_dataset, hpl]
    rw [destroy_snapshots, hds, process_datasets, hpd]
  · intro fileExists now pool date exclude_file sq se dr nc label sc dt hne hdate hex
    exact ⟨_, Config_new_success fileExists now pool date exclude_file sq se dr 0 nc
      label sc dt hne hdate hex, rfl⟩

/-- Witness for C10: batch size 0 on one concrete candidate panics. -/
theorem c10_witness :
    destroy_snapshots (fun _ => true) [fxSnapTank] 0 = none :=
  c10_zero_batch_size_panics.2.1 [fxSnapTank] (fun _ => true) (by simp)

end Honeydew
